import Mathlib

/-!
Verification of the hashconnect session/pairing core
(`src/lib/src/hashconnect.ts`).

JavaScript strings are modelled as Lean `String`s (sequences of code
points; all inputs relevant to the claims are in the Basic Multilingual
Plane, where `charCodeAt` agrees with the code point). Node `Buffer`
base64/utf8 conversions and `JSON.stringify`/`JSON.parse` are platform
builtins and are modelled explicitly below. Stateful methods of the
`HashConnect` class are modelled by explicit state passing; `await`ed
transport calls propagate their `Except` result, un-`await`ed ones only
record the call.
-/

/-! ### Character classes of the sanitizer (JS regex `[^\w. ]` with `\w = [A-Za-z0-9_]`) -/

/-- JS `\w` word characters: `A`-`Z`, `a`-`z`, `0`-`9` and `_` (code 95). -/
def isWordChar (c : Char) : Bool :=
  (65 ≤ c.toNat && c.toNat ≤ 90) || (97 ≤ c.toNat && c.toNat ≤ 122) ||
  (48 ≤ c.toNat && c.toNat ≤ 57) || c.toNat == 95

/-- Characters the regex `[^\w. ]` does not match: word characters, `.` (46) and space (32). -/
def isSafeChar (c : Char) : Bool :=
  isWordChar c || c.toNat == 46 || c.toNat == 32

/-- One step of `str.replace(/[^\w. ]/gi, c => ...)`: a safe character is kept,
any other character is replaced by the callback result
`(c == ".") ? "." : "&#" + c.charCodeAt(0) + ";"`.
The `c == "."` test is inside the matched branch, as in the source. -/
def escapeChar (c : Char) : List Char :=
  if isSafeChar c then [c]
  else if c.toNat == 46 then [Char.ofNat 46]
  else Char.ofNat 38 :: Char.ofNat 35 :: Nat.toDigits 10 c.toNat ++ [Char.ofNat 59]

/-- `sanitizeString` from the source: `str.replace(/[^\w. ]/gi, ...)` applied
character by character. -/
def sanitizeString (str : String) : String :=
  String.mk (str.data.flatMap escapeChar)

/-- Modelled from the spec: the sanitizer contract of section 4.2 — every
character outside the class word-char / `.` / space is replaced by its
numeric HTML character reference `&#code;`, and `.` is passed through
unescaped. Stated independently of the source to compare with
`sanitizeString`. -/
def sanitizeSpec (str : String) : String :=
  String.mk (str.data.flatMap fun c =>
    if isSafeChar c then [c]
    else Char.ofNat 38 :: Char.ofNat 35 :: Nat.toDigits 10 c.toNat ++ [Char.ofNat 59])

theorem escapeChar_eq (c : Char) : escapeChar c =
    (if isSafeChar c then [c]
     else Char.ofNat 38 :: Char.ofNat 35 :: Nat.toDigits 10 c.toNat ++ [Char.ofNat 59]) := by
  unfold escapeChar
  by_cases h : isSafeChar c = true
  · simp [h]
  · have h46 : (c.toNat == 46) = false := by
      rcases h' : (c.toNat == 46) with _ | _
      · rfl
      · exact absurd (by simp [isSafeChar, h']) h
    simp [h, h46]

theorem sanitizeString_eq_spec (s : String) : sanitizeString s = sanitizeSpec s := by
  unfold sanitizeString sanitizeSpec
  have : escapeChar = fun c =>
      (if isSafeChar c then [c]
       else Char.ofNat 38 :: Char.ofNat 35 :: Nat.toDigits 10 c.toNat ++ [Char.ofNat 59]) :=
    funext escapeChar_eq
  rw [this]

theorem flatMap_escapeChar_safe : ∀ l : List Char, (∀ c ∈ l, isSafeChar c = true) →
    l.flatMap escapeChar = l := by
  intro l h
  induction l with
  | nil => rfl
  | cons c t ih =>
    have hc : isSafeChar c = true := h c (by simp)
    have ht : ∀ c ∈ t, isSafeChar c = true := fun x hx => h x (by simp [hx])
    simp only [List.flatMap_cons, escapeChar, hc, if_pos]
    rw [ih ht]
    rfl

/-- On strings made of safe characters the sanitizer is the identity. -/
theorem sanitizeString_safe (s : String) (h : ∀ c ∈ s.data, isSafeChar c = true) :
    sanitizeString s = s := by
  unfold sanitizeString
  rw [flatMap_escapeChar_safe s.data h]

/-! ### Base64 (model of Node `Buffer` base64 encode / lenient decode) -/

/-- The base64 alphabet in index order. -/
def b64Alphabet : List Char :=
  "ABCDEFGHIJKLMNOPQRSTUVWXYZabcdefghijklmnopqrstuvwxyz0123456789+/".data

def base64Char (n : Nat) : Char := b64Alphabet.getD n (Char.ofNat 65)

/-- Value of a base64 alphabet character; `none` for `=` and any other character. -/
def b64CharVal (c : Char) : Option Nat := b64Alphabet.findIdx? (· == c)

/-- `Buffer.prototype.toString('base64')`: 3 input bytes become 4 alphabet
characters; a 1- or 2-byte remainder is padded with `=` (code 61). -/
def b64EncodeBytes : List Nat → List Char
  | a :: b :: c :: rest =>
    base64Char (a / 4) :: base64Char (a % 4 * 16 + b / 16) ::
    base64Char (b % 16 * 4 + c / 64) :: base64Char (c % 64) :: b64EncodeBytes rest
  | [a, b] => [base64Char (a / 4), base64Char (a % 4 * 16 + b / 16),
               base64Char (b % 16 * 4), Char.ofNat 61]
  | [a] => [base64Char (a / 4), base64Char (a % 4 * 16), Char.ofNat 61, Char.ofNat 61]
  | [] => []

/-- Collect the sextet values of a base64 text, as Node's lenient decoder does:
characters outside the alphabet are skipped, decoding stops at the first `=`. -/
def b64Sextets : List Char → List Nat
  | [] => []
  | c :: rest =>
    if c.toNat = 61 then []
    else
      match b64CharVal c with
      | some v => v :: b64Sextets rest
      | none => b64Sextets rest

/-- Reassemble bytes from sextets (4 sextets give 3 bytes; a trailing group of
2 or 3 sextets gives 1 or 2 bytes; a lone trailing sextet is dropped). -/
def b64DecodeSextets : List Nat → List Nat
  | a :: b :: c :: d :: rest =>
    (a * 4 + b / 16) :: (b % 16 * 16 + c / 4) :: (c % 4 * 64 + d) :: b64DecodeSextets rest
  | [a, b, c] => [a * 4 + b / 16, b % 16 * 16 + c / 4]
  | [a, b] => [a * 4 + b / 16]
  | _ => []

/-- `Buffer.from(s, 'base64')`. -/
def b64DecodeString (s : String) : List Nat :=
  b64DecodeSextets (b64Sextets s.data)

/-- Bytes to base64 text, as a `String`. -/
def b64EncodeString (bytes : List Nat) : String :=
  String.mk (b64EncodeBytes bytes)

theorem b64CharVal_base64Char : ∀ n, n < 64 → b64CharVal (base64Char n) = some n := by
  decide

theorem base64Char_toNat_ne_61 : ∀ n, n < 64 → (base64Char n).toNat ≠ 61 := by
  decide

theorem b64Sextets_cons (n : Nat) (hn : n < 64) (rest : List Char) :
    b64Sextets (base64Char n :: rest) = n :: b64Sextets rest := by
  rw [b64Sextets]
  rw [if_neg (base64Char_toNat_ne_61 n hn)]
  rw [b64CharVal_base64Char n hn]

theorem b64Sextets_pad (rest : List Char) :
    b64Sextets (Char.ofNat 61 :: rest) = [] := by
  rw [b64Sextets]
  rw [if_pos (by decide)]

/-- Base64 round trip on byte lists. -/
theorem b64_roundtrip : ∀ l : List Nat, (∀ b ∈ l, b < 256) →
    b64DecodeSextets (b64Sextets (b64EncodeBytes l)) = l
  | [] => fun _ => rfl
  | [a] => by
    intro h
    have ha : a < 256 := h a (by simp)
    rw [b64EncodeBytes]
    rw [b64Sextets_cons _ (by omega), b64Sextets_cons _ (by omega)]
    rw [b64Sextets_pad]
    rw [show b64DecodeSextets [a / 4, a % 4 * 16] = [a / 4 * 4 + a % 4 * 16 / 16] from rfl]
    have : a / 4 * 4 + a % 4 * 16 / 16 = a := by omega
    rw [this]
  | [a, b] => by
    intro h
    have ha : a < 256 := h a (by simp)
    have hb : b < 256 := h b (by simp)
    rw [b64EncodeBytes]
    rw [b64Sextets_cons _ (by omega), b64Sextets_cons _ (by omega),
        b64Sextets_cons _ (by omega)]
    rw [b64Sextets_pad]
    rw [show b64DecodeSextets [a / 4, a % 4 * 16 + b / 16, b % 16 * 4] =
      [a / 4 * 4 + (a % 4 * 16 + b / 16) / 16,
       (a % 4 * 16 + b / 16) % 16 * 16 + b % 16 * 4 / 4] from rfl]
    have h1 : a / 4 * 4 + (a % 4 * 16 + b / 16) / 16 = a := by omega
    have h2 : (a % 4 * 16 + b / 16) % 16 * 16 + b % 16 * 4 / 4 = b := by omega
    rw [h1, h2]
  | a :: b :: c :: d :: rest => by
    intro h
    have ha : a < 256 := h a (by simp)
    have hb : b < 256 := h b (by simp)
    have hc : c < 256 := h c (by simp)
    have hrest : ∀ x ∈ d :: rest, x < 256 := fun x hx => h x (by simp at hx ⊢; tauto)
    have ih := b64_roundtrip (d :: rest) hrest
    rw [b64EncodeBytes]
    rw [b64Sextets_cons _ (by omega), b64Sextets_cons _ (by omega),
        b64Sextets_cons _ (by omega), b64Sextets_cons _ (by omega)]
    rw [b64DecodeSextets]
    have h1 : a / 4 * 4 + (a % 4 * 16 + b / 16) / 16 = a := by omega
    have h2 : (a % 4 * 16 + b / 16) % 16 * 16 + (b % 16 * 4 + c / 64) / 4 = b := by omega
    have h3 : (b % 16 * 4 + c / 64) % 4 * 64 + c % 64 = c := by omega
    rw [h1, h2, h3, ih]
  | [a, b, c] => by
    intro h
    have ha : a < 256 := h a (by simp)
    have hb : b < 256 := h b (by simp)
    have hc : c < 256 := h c (by simp)
    rw [b64EncodeBytes]
    rw [b64Sextets_cons _ (by omega), b64Sextets_cons _ (by omega),
        b64Sextets_cons _ (by omega), b64Sextets_cons _ (by omega)]
    rw [show b64EncodeBytes [] = [] from rfl]
    rw [show b64Sextets [] = [] from rfl]
    rw [b64DecodeSextets]
    have h1 : a / 4 * 4 + (a % 4 * 16 + b / 16) / 16 = a := by omega
    have h2 : (a % 4 * 16 + b / 16) % 16 * 16 + (b % 16 * 4 + c / 64) / 4 = b := by omega
    have h3 : (b % 16 * 4 + c / 64) % 4 * 64 + c % 64 = c := by omega
    rw [h1, h2, h3]
    rfl

/-! ### UTF-8 (model of `Buffer.from(string)` / `buffer.toString()`) -/

/-- Standard UTF-8 encoding of one code point (1 to 4 bytes). -/
def utf8EncodeChar (c : Char) : List Nat :=
  let n := c.toNat
  if n < 128 then [n]
  else if n < 2048 then [192 + n / 64, 128 + n % 64]
  else if n < 65536 then [224 + n / 4096, 128 + n / 64 % 64, 128 + n % 64]
  else [240 + n / 262144, 128 + n / 4096 % 64, 128 + n / 64 % 64, 128 + n % 64]

/-- `Buffer.from(s)` — UTF-8 bytes of a string. -/
def utf8Encode (s : String) : List Nat :=
  s.data.flatMap utf8EncodeChar

/-- One UTF-8 decoding step: from a lead byte and the remaining bytes,
produce one character and the bytes left over. A malformed sequence yields
U+FFFD, as in Node's `buffer.toString()`. -/
def utf8DecodeStep (b : Nat) (rest : List Nat) : Char × List Nat :=
  if b < 128 then (Char.ofNat b, rest)
  else if b < 192 then (Char.ofNat 65533, rest)
  else if b < 224 then
    match rest with
    | b2 :: rest2 => (Char.ofNat ((b - 192) * 64 + (b2 - 128)), rest2)
    | [] => (Char.ofNat 65533, [])
  else if b < 240 then
    match rest with
    | b2 :: b3 :: rest2 => (Char.ofNat ((b - 224) * 4096 + (b2 - 128) * 64 + (b3 - 128)), rest2)
    | _ => (Char.ofNat 65533, [])
  else
    match rest with
    | b2 :: b3 :: b4 :: rest2 =>
      (Char.ofNat ((b - 240) * 262144 + (b2 - 128) * 4096 + (b3 - 128) * 64 + (b4 - 128)), rest2)
    | _ => (Char.ofNat 65533, [])

/-- Decode a UTF-8 byte list; the fuel is an upper bound on the number of
characters (each step consumes at least one byte, so the byte count suffices). -/
def utf8DecodeLoop : Nat → List Nat → List Char
  | _, [] => []
  | 0, _ :: _ => []
  | Nat.succ f, b :: rest =>
    (utf8DecodeStep b rest).1 :: utf8DecodeLoop f (utf8DecodeStep b rest).2

/-- `buffer.toString()` — string from UTF-8 bytes. -/
def utf8DecodeStr (bytes : List Nat) : String :=
  String.mk (utf8DecodeLoop bytes.length bytes)

theorem utf8DecodeStep_ascii (b : Nat) (hb : b < 128) (rest : List Nat) :
    utf8DecodeStep b rest = (Char.ofNat b, rest) := by
  unfold utf8DecodeStep
  rw [if_pos hb]

/-- UTF-8 round trip for ASCII character lists, with any sufficient fuel. -/
theorem utf8_ascii_roundtrip : ∀ l : List Char, ∀ fuel : Nat,
    (∀ c ∈ l, c.toNat < 128) → l.length ≤ fuel →
    utf8DecodeLoop fuel (l.flatMap utf8EncodeChar) = l := by
  intro l
  induction l with
  | nil => intro fuel _ _; cases fuel <;> rfl
  | cons c t ih =>
    intro fuel h hf
    have hc : c.toNat < 128 := h c (by simp)
    have ht : ∀ x ∈ t, x.toNat < 128 := fun x hx => h x (by simp [hx])
    cases fuel with
    | zero => exact absurd hf (by simp)
    | succ f =>
      simp only [List.flatMap_cons]
      rw [show utf8EncodeChar c = [c.toNat] by unfold utf8EncodeChar; rw [if_pos hc]]
      rw [show ([c.toNat] ++ t.flatMap utf8EncodeChar) =
        c.toNat :: t.flatMap utf8EncodeChar from rfl]
      rw [show utf8DecodeLoop (Nat.succ f) (c.toNat :: t.flatMap utf8EncodeChar) =
        (utf8DecodeStep c.toNat (t.flatMap utf8EncodeChar)).1 ::
          utf8DecodeLoop f (utf8DecodeStep c.toNat (t.flatMap utf8EncodeChar)).2 from rfl]
      rw [utf8DecodeStep_ascii c.toNat hc]
      rw [Char.ofNat_toNat]
      rw [ih f ht (by simp at hf; omega)]

/-- ASCII characters produce UTF-8 bytes below 256, one byte per character. -/
theorem utf8Encode_ascii (l : List Char) (h : ∀ c ∈ l, c.toNat < 128) :
    l.flatMap utf8EncodeChar = l.map Char.toNat := by
  induction l with
  | nil => rfl
  | cons c t ih =>
    have hc : c.toNat < 128 := h c (by simp)
    have ht : ∀ x ∈ t, x.toNat < 128 := fun x hx => h x (by simp [hx])
    simp only [List.flatMap_cons, List.map_cons]
    rw [show utf8EncodeChar c = [c.toNat] by unfold utf8EncodeChar; rw [if_pos hc]]
    rw [ih ht]
    rfl

/-! ### JSON values (model of the JS values produced by `JSON.parse`) -/

/-- Untyped JS values, restricted to the grammar this codebase serializes:
strings, booleans, `null` and objects (field order significant, as in JS). -/
inductive Js where
  | str : String → Js
  | bool : Bool → Js
  | null : Js
  | obj : List (String × Js) → Js

/-- Characters that JSON string serialization passes through unchanged and
that UTF-8 encodes in one byte: printable ASCII other than `"` and `\`. -/
def jsonSafeChar (c : Char) : Bool :=
  (32 ≤ c.toNat && c.toNat < 128) && c.toNat != 34 && c.toNat != 92

def hexDigitChar (n : Nat) : Char :=
  if n < 10 then Char.ofNat (48 + n) else Char.ofNat (87 + n)

/-- JSON string escaping as performed by `JSON.stringify`: `"` and `\` get a
backslash, the common control characters use their short escapes, other
control characters use `\u00XX`, everything else passes through. -/
def jsonEscapeChar (c : Char) : List Char :=
  if c.toNat = 34 then [Char.ofNat 92, Char.ofNat 34]
  else if c.toNat = 92 then [Char.ofNat 92, Char.ofNat 92]
  else if c.toNat = 8 then [Char.ofNat 92, Char.ofNat 98]
  else if c.toNat = 9 then [Char.ofNat 92, Char.ofNat 116]
  else if c.toNat = 10 then [Char.ofNat 92, Char.ofNat 110]
  else if c.toNat = 12 then [Char.ofNat 92, Char.ofNat 102]
  else if c.toNat = 13 then [Char.ofNat 92, Char.ofNat 114]
  else if c.toNat < 32 then
    [Char.ofNat 92, Char.ofNat 117, Char.ofNat 48, Char.ofNat 48,
     hexDigitChar (c.toNat / 16), hexDigitChar (c.toNat % 16)]
  else [c]

/-- A JSON string literal: quote, escaped content, quote. -/
def jsonQuote (s : String) : List Char :=
  Char.ofNat 34 :: s.data.flatMap jsonEscapeChar ++ [Char.ofNat 34]

theorem jsonEscapeChar_safe (c : Char) (h : jsonSafeChar c = true) :
    jsonEscapeChar c = [c] := by
  simp only [jsonSafeChar, Bool.and_eq_true, bne_iff_ne, ne_eq, decide_eq_true_eq] at h
  unfold jsonEscapeChar
  repeat rw [if_neg (by omega)]

theorem flatMap_jsonEscapeChar_safe (l : List Char) (h : ∀ c ∈ l, jsonSafeChar c = true) :
    l.flatMap jsonEscapeChar = l := by
  induction l with
  | nil => rfl
  | cons c t ih =>
    simp only [List.flatMap_cons]
    rw [jsonEscapeChar_safe c (h c (by simp))]
    rw [ih fun x hx => h x (by simp [hx])]
    rfl

theorem jsonQuote_safe (s : String) (h : ∀ c ∈ s.data, jsonSafeChar c = true) :
    jsonQuote s = Char.ofNat 34 :: (s.data ++ [Char.ofNat 34]) := by
  unfold jsonQuote
  rw [flatMap_jsonEscapeChar_safe s.data h]
  rw [List.cons_append]

/-! ### JSON parsing (model of `JSON.parse`, restricted to the grammar above) -/

/-- Skip JSON whitespace. -/
def skipWs : List Char → List Char
  | [] => []
  | c :: rest =>
    if c.toNat = 32 ∨ c.toNat = 9 ∨ c.toNat = 10 ∨ c.toNat = 13 then skipWs rest
    else c :: rest

def hexVal (c : Char) : Option Nat :=
  if 48 ≤ c.toNat ∧ c.toNat ≤ 57 then some (c.toNat - 48)
  else if 65 ≤ c.toNat ∧ c.toNat ≤ 70 then some (c.toNat - 55)
  else if 97 ≤ c.toNat ∧ c.toNat ≤ 102 then some (c.toNat - 87)
  else none

/-- Decode one escape sequence (the characters after a backslash). -/
def parseEscape : List Char → Option (Char × List Char)
  | [] => none
  | e :: rest =>
    if e.toNat = 117 then
      match rest with
      | h1 :: h2 :: h3 :: h4 :: rest2 =>
        match hexVal h1, hexVal h2, hexVal h3, hexVal h4 with
        | some v1, some v2, some v3, some v4 =>
          some (Char.ofNat (v1 * 4096 + v2 * 256 + v3 * 16 + v4), rest2)
        | _, _, _, _ => none
      | _ => none
    else if e.toNat = 34 then some (Char.ofNat 34, rest)
    else if e.toNat = 92 then some (Char.ofNat 92, rest)
    else if e.toNat = 47 then some (Char.ofNat 47, rest)
    else if e.toNat = 98 then some (Char.ofNat 8, rest)
    else if e.toNat = 102 then some (Char.ofNat 12, rest)
    else if e.toNat = 110 then some (Char.ofNat 10, rest)
    else if e.toNat = 114 then some (Char.ofNat 13, rest)
    else if e.toNat = 116 then some (Char.ofNat 9, rest)
    else none

/-- Parse the body of a string literal (after the opening quote) up to the
closing quote; the fuel bounds the number of characters produced. -/
def parseStringBody : Nat → List Char → Option (List Char × List Char)
  | _, [] => none
  | 0, _ :: _ => none
  | Nat.succ f, c :: rest =>
    if c.toNat = 34 then some ([], rest)
    else if c.toNat = 92 then
      (parseEscape rest).bind fun p =>
        (parseStringBody f p.2).map fun q => (p.1 :: q.1, q.2)
    else (parseStringBody f rest).map fun q => (c :: q.1, q.2)

/-- The recursive core of `JSON.parse` for this grammar. In value mode
(`isValue = true`) it parses one JSON value and returns it as `Sum.inl`;
in member mode it parses `"key": value (, ...)* }` — the member list of an
object, consuming the closing brace — and returns the fields as `Sum.inr`.
The fuel bounds the recursion depth. -/
def parseAny : Nat → Bool → List Char → Option ((Js ⊕ List (String × Js)) × List Char)
  | 0, _, _ => none
  | Nat.succ f, isValue, input =>
    if isValue then
      match skipWs input with
      | [] => none
      | c :: rest =>
        if c.toNat = 34 then
          (parseStringBody rest.length rest).map fun p => (Sum.inl (Js.str (String.mk p.1)), p.2)
        else if c.toNat = 123 then
          match skipWs rest with
          | [] => none
          | d :: rest2 =>
            if d.toNat = 125 then some (Sum.inl (Js.obj []), rest2)
            else
              (parseAny f false rest).bind fun p =>
                match p.1 with
                | Sum.inr fields => some (Sum.inl (Js.obj fields), p.2)
                | Sum.inl _ => none
        else if c.toNat = 116 then
          match rest with
          | r1 :: r2 :: r3 :: rest2 =>
            if r1.toNat = 114 ∧ r2.toNat = 117 ∧ r3.toNat = 101 then
              some (Sum.inl (Js.bool true), rest2)
            else none
          | _ => none
        else if c.toNat = 102 then
          match rest with
          | r1 :: r2 :: r3 :: r4 :: rest2 =>
            if r1.toNat = 97 ∧ r2.toNat = 108 ∧ r3.toNat = 115 ∧ r4.toNat = 101 then
              some (Sum.inl (Js.bool false), rest2)
            else none
          | _ => none
        else if c.toNat = 110 then
          match rest with
          | r1 :: r2 :: r3 :: rest2 =>
            if r1.toNat = 117 ∧ r2.toNat = 108 ∧ r3.toNat = 108 then
              some (Sum.inl Js.null, rest2)
            else none
          | _ => none
        else none
    else
      match skipWs input with
      | [] => none
      | c :: rest =>
        if c.toNat = 34 then
          (parseStringBody rest.length rest).bind fun pk =>
            match skipWs pk.2 with
            | [] => none
            | d :: rest3 =>
              if d.toNat = 58 then
                (parseAny f true rest3).bind fun pv =>
                  match pv.1 with
                  | Sum.inl v =>
                    (match skipWs pv.2 with
                     | [] => none
                     | e :: rest5 =>
                       if e.toNat = 44 then
                         (parseAny f false rest5).bind fun pm =>
                           match pm.1 with
                           | Sum.inr fs => some (Sum.inr ((String.mk pk.1, v) :: fs), pm.2)
                           | Sum.inl _ => none
                       else if e.toNat = 125 then
                         some (Sum.inr [(String.mk pk.1, v)], rest5)
                       else none)
                  | Sum.inr _ => none
              else none
        else none

/-- `JSON.parse`: parse one value, allow trailing whitespace only. -/
def jsonParse (s : String) : Option Js :=
  match parseAny (s.data.length + 1) true s.data with
  | some (Sum.inl v, rest) => if skipWs rest = [] then some v else none
  | _ => none

/-! ### Parser lemmas for serialized safe strings and objects -/

theorem parseStringBody_safe : ∀ (l : List Char) (fuel : Nat) (rest : List Char),
    (∀ c ∈ l, jsonSafeChar c = true) → l.length < fuel →
    parseStringBody fuel (l ++ Char.ofNat 34 :: rest) = some (l, rest) := by
  intro l
  induction l with
  | nil =>
    intro fuel rest _ hf
    cases fuel with
    | zero => omega
    | succ f =>
      rw [List.nil_append]
      rw [parseStringBody]
      rw [if_pos (by decide)]
  | cons c t ih =>
    intro fuel rest h hf
    cases fuel with
    | zero => simp at hf
    | succ f =>
      have hc := h c (by simp)
      simp only [jsonSafeChar, Bool.and_eq_true, bne_iff_ne, ne_eq, decide_eq_true_eq] at hc
      rw [List.cons_append]
      rw [parseStringBody]
      rw [if_neg (by omega), if_neg (by omega)]
      rw [ih f rest (fun x hx => h x (by simp [hx])) (by simp at hf; omega)]
      rfl

/-- Unfolding of the parser in value mode at a string literal. -/
theorem parseAny_true_quote_eq (f : Nat) (tail : List Char) :
    parseAny (Nat.succ f) true (Char.ofNat 34 :: tail) =
      (parseStringBody tail.length tail).map
        (fun p => (Sum.inl (Js.str (String.mk p.1)), p.2)) := rfl

/-- Unfolding of the parser in member mode at a key string literal. -/
theorem parseAny_false_quote_eq (f : Nat) (tail : List Char) :
    parseAny (Nat.succ f) false (Char.ofNat 34 :: tail) =
      ((parseStringBody tail.length tail).bind fun pk =>
        match skipWs pk.2 with
        | [] => none
        | d :: rest3 =>
          if d.toNat = 58 then
            (parseAny f true rest3).bind fun pv =>
              match pv.1 with
              | Sum.inl v =>
                (match skipWs pv.2 with
                 | [] => none
                 | e :: rest5 =>
                   if e.toNat = 44 then
                     (parseAny f false rest5).bind fun pm =>
                       match pm.1 with
                       | Sum.inr fs => some (Sum.inr ((String.mk pk.1, v) :: fs), pm.2)
                       | Sum.inl _ => none
                   else if e.toNat = 125 then
                     some (Sum.inr [(String.mk pk.1, v)], rest5)
                   else none)
              | Sum.inr _ => none
          else none) := rfl

/-- Parsing a safe serialized string literal in value mode. -/
theorem parseAny_str (f : Nat) (s : String) (rest : List Char)
    (hs : ∀ c ∈ s.data, jsonSafeChar c = true) :
    parseAny (Nat.succ f) true (jsonQuote s ++ rest) = some (Sum.inl (Js.str s), rest) := by
  rw [jsonQuote_safe s hs]
  rw [List.cons_append, List.append_assoc]
  rw [show [Char.ofNat 34] ++ rest = Char.ofNat 34 :: rest from rfl]
  rw [parseAny_true_quote_eq]
  rw [parseStringBody_safe s.data _ rest hs (by simp [List.length_append])]
  rfl

/-- Parsing serialized booleans in value mode. -/
theorem parseAny_boolLit (f : Nat) (b : Bool) (rest : List Char) :
    parseAny (Nat.succ f) true ((if b then "true".data else "false".data) ++ rest) =
      some (Sum.inl (Js.bool b), rest) := by
  cases b <;> rfl

/-- Parsing the last member of an object in member mode. -/
theorem parseAny_members_last (f : Nat) (k : String) (v : Js) (mid rest : List Char)
    (hk : ∀ c ∈ k.data, jsonSafeChar c = true)
    (hv : parseAny f true mid = some (Sum.inl v, Char.ofNat 125 :: rest)) :
    parseAny (Nat.succ f) false (jsonQuote k ++ Char.ofNat 58 :: mid) =
      some (Sum.inr [(k, v)], rest) := by
  rw [jsonQuote_safe k hk]
  rw [List.cons_append, List.append_assoc]
  rw [show [Char.ofNat 34] ++ Char.ofNat 58 :: mid =
    Char.ofNat 34 :: Char.ofNat 58 :: mid from rfl]
  rw [parseAny_false_quote_eq]
  rw [parseStringBody_safe k.data _ (Char.ofNat 58 :: mid) hk (by simp [List.length_append])]
  show (parseAny f true mid).bind (fun pv =>
      match pv.1 with
      | Sum.inl v' =>
        (match skipWs pv.2 with
         | [] => none
         | e :: rest5 =>
           if e.toNat = 44 then
             (parseAny f false rest5).bind fun pm =>
               match pm.1 with
               | Sum.inr fs => some (Sum.inr ((String.mk k.data, v') :: fs), pm.2)
               | Sum.inl _ => none
           else if e.toNat = 125 then
             some (Sum.inr [(String.mk k.data, v')], rest5)
           else none)
      | Sum.inr _ => none) = some (Sum.inr [(k, v)], rest)
  rw [hv]
  rfl

/-- Parsing a non-last member of an object in member mode. -/
theorem parseAny_members_cons (f : Nat) (k : String) (v : Js)
    (mid rest rest2 : List Char) (fs : List (String × Js))
    (hk : ∀ c ∈ k.data, jsonSafeChar c = true)
    (hv : parseAny f true mid = some (Sum.inl v, Char.ofNat 44 :: rest))
    (hm : parseAny f false rest = some (Sum.inr fs, rest2)) :
    parseAny (Nat.succ f) false (jsonQuote k ++ Char.ofNat 58 :: mid) =
      some (Sum.inr ((k, v) :: fs), rest2) := by
  rw [jsonQuote_safe k hk]
  rw [List.cons_append, List.append_assoc]
  rw [show [Char.ofNat 34] ++ Char.ofNat 58 :: mid =
    Char.ofNat 34 :: Char.ofNat 58 :: mid from rfl]
  rw [parseAny_false_quote_eq]
  rw [parseStringBody_safe k.data _ (Char.ofNat 58 :: mid) hk (by simp [List.length_append])]
  show (parseAny f true mid).bind (fun pv =>
      match pv.1 with
      | Sum.inl v' =>
        (match skipWs pv.2 with
         | [] => none
         | e :: rest5 =>
           if e.toNat = 44 then
             (parseAny f false rest5).bind fun pm =>
               match pm.1 with
               | Sum.inr fs' => some (Sum.inr ((String.mk k.data, v') :: fs'), pm.2)
               | Sum.inl _ => none
           else if e.toNat = 125 then
             some (Sum.inr [(String.mk k.data, v')], rest5)
           else none)
      | Sum.inr _ => none) = some (Sum.inr ((k, v) :: fs), rest2)
  rw [hv]
  show (parseAny f false rest).bind (fun pm =>
      match pm.1 with
      | Sum.inr fs' => some (Sum.inr ((String.mk k.data, v) :: fs'), pm.2)
      | Sum.inl _ => none) = some (Sum.inr ((k, v) :: fs), rest2)
  rw [hm]
  rfl

/-- Parsing an object whose member text starts with a quoted key. -/
theorem parseAny_obj (f : Nat) (mid rest2 : List Char) (fs : List (String × Js))
    (hhead : ∃ t, mid = Char.ofNat 34 :: t)
    (hm : parseAny f false mid = some (Sum.inr fs, rest2)) :
    parseAny (Nat.succ f) true (Char.ofNat 123 :: mid) =
      some (Sum.inl (Js.obj fs), rest2) := by
  obtain ⟨tail, ht⟩ := hhead
  subst ht
  rw [show parseAny (Nat.succ f) true (Char.ofNat 123 :: Char.ofNat 34 :: tail) =
    ((parseAny f false (Char.ofNat 34 :: tail)).bind fun p =>
      match p.1 with
      | Sum.inr fields => some (Sum.inl (Js.obj fields), p.2)
      | Sum.inl _ => none) from rfl]
  rw [hm]
  rfl

/-! ### Domain data (shapes from the spec; the types module is not under src/) -/

/-- Every character of the string is JSON/UTF-8 benign (printable ASCII,
no quote, no backslash). -/
def JsonSafeStr (s : String) : Prop := ∀ c ∈ s.data, jsonSafeChar c = true

/-- Every character of the string is in the sanitizer's safe alphabet. -/
def SafeAlphaStr (s : String) : Prop := ∀ c ∈ s.data, isSafeChar c = true

theorem jsonSafeStr_of_all (s : String) (h : s.data.all jsonSafeChar = true) :
    JsonSafeStr s := fun c hc => List.all_eq_true.mp h c hc

theorem safeAlphaStr_of_all (s : String) (h : s.data.all isSafeChar = true) :
    SafeAlphaStr s := fun c hc => List.all_eq_true.mp h c hc

theorem isSafeChar_jsonSafe (c : Char) (h : isSafeChar c = true) : jsonSafeChar c = true := by
  simp only [isSafeChar, isWordChar, Bool.or_eq_true, Bool.and_eq_true, beq_iff_eq,
    decide_eq_true_eq] at h
  simp only [jsonSafeChar, Bool.and_eq_true, bne_iff_ne, ne_eq, decide_eq_true_eq]
  omega

theorem SafeAlphaStr.jsonSafe {s : String} (h : SafeAlphaStr s) : JsonSafeStr s :=
  fun c hc => isSafeChar_jsonSafe c (h c hc)

/-- Modelled from the spec: `HashConnectTypes.AppMetadata` /
`HashConnectTypes.WalletMetadata` (the types module is not under src/):
`{ name, description, icon, url?, publicKey? }`. -/
structure Metadata where
  name : String
  description : String
  icon : String
  url : Option String
  publicKey : Option String
deriving DecidableEq

/-- Modelled from the spec: `HashConnectTypes.PairingData`:
`{ metadata, topic, network, multiAccount }`. -/
structure PairingData where
  metadata : Metadata
  topic : String
  network : String
  multiAccount : Bool
deriving DecidableEq

/-- Modelled from the spec: `HashConnectTypes.ConnectionState`:
`{ topic, expires }`. -/
structure ConnectionState where
  topic : String
  expires : Nat
deriving DecidableEq

/-- Modelled from the spec: `HashConnectTypes.InitilizationData`: `{ privKey }`. -/
structure InitilizationData where
  privKey : String
deriving DecidableEq

/-- The string-valued fields of a metadata object in JS insertion order;
`undefined` optional fields are absent, as `JSON.stringify` omits them. -/
def metadataStrFields (m : Metadata) : List (String × String) :=
  [("name", m.name), ("description", m.description), ("icon", m.icon)]
    ++ (match m.url with | some u => [("url", u)] | none => [])
    ++ (match m.publicKey with | some k => [("publicKey", k)] | none => [])

/-- The JS value of a metadata object. -/
def metadataToJs (m : Metadata) : Js :=
  Js.obj ((metadataStrFields m).map fun kv => (kv.1, Js.str kv.2))

/-- The JS value of a `PairingData` record. -/
def pairingDataToJs (p : PairingData) : Js :=
  Js.obj [("metadata", metadataToJs p.metadata), ("topic", Js.str p.topic),
          ("network", Js.str p.network), ("multiAccount", Js.bool p.multiAccount)]

/-! ### `JSON.stringify`, specialized to the record shapes this code serializes -/

/-- One `"key":"value"` member. -/
def stringifyStrField (k v : String) : List Char :=
  jsonQuote k ++ Char.ofNat 58 :: jsonQuote v

/-- Comma-separated members of string fields. -/
def strFieldsChain : List (String × String) → List Char
  | [] => []
  | [kv] => stringifyStrField kv.1 kv.2
  | kv :: kv2 :: rest => stringifyStrField kv.1 kv.2 ++ Char.ofNat 44 :: strFieldsChain (kv2 :: rest)

/-- `JSON.stringify` of a metadata object. -/
def stringifyMetadata (m : Metadata) : List Char :=
  Char.ofNat 123 :: strFieldsChain (metadataStrFields m) ++ [Char.ofNat 125]

def stringifyBoolLit (b : Bool) : List Char :=
  if b then "true".data else "false".data

/-- Modelled: `JSON.stringify` applied to the `PairingData` object literal
built in `generatePairingString` (members in insertion order:
metadata, topic, network, multiAccount). -/
def stringifyPairingData (p : PairingData) : List Char :=
  Char.ofNat 123 :: (jsonQuote "metadata" ++ Char.ofNat 58 :: stringifyMetadata p.metadata)
    ++ Char.ofNat 44 :: stringifyStrField "topic" p.topic
    ++ Char.ofNat 44 :: stringifyStrField "network" p.network
    ++ Char.ofNat 44 :: (jsonQuote "multiAccount" ++ Char.ofNat 58 :: stringifyBoolLit p.multiAccount)
    ++ [Char.ofNat 125]

/-! ### Parsing the serialized shapes back -/

theorem jsonQuote_head (s : String) (hs : JsonSafeStr s) (X : List Char) :
    ∃ t, jsonQuote s ++ X = Char.ofNat 34 :: t := by
  refine ⟨(s.data ++ [Char.ofNat 34]) ++ X, ?_⟩
  rw [jsonQuote_safe s hs, List.cons_append]

theorem strFieldsChain_head (kv : String × String) (kvs : List (String × String))
    (X : List Char) (hk : JsonSafeStr kv.1) :
    ∃ t, strFieldsChain (kv :: kvs) ++ X = Char.ofNat 34 :: t := by
  cases kvs with
  | nil =>
    rw [show strFieldsChain [kv] = stringifyStrField kv.1 kv.2 from rfl]
    unfold stringifyStrField
    rw [List.append_assoc]
    exact jsonQuote_head kv.1 hk _
  | cons kv2 rest =>
    rw [show strFieldsChain (kv :: kv2 :: rest) =
      stringifyStrField kv.1 kv.2 ++ Char.ofNat 44 :: strFieldsChain (kv2 :: rest) from rfl]
    unfold stringifyStrField
    rw [List.append_assoc, List.append_assoc]
    exact jsonQuote_head kv.1 hk _

/-- Parsing a nonempty chain of string members, consuming the closing brace. -/
theorem parseAny_strFieldsChain :
    ∀ (kvs : List (String × String)) (f : Nat) (rest : List Char),
    kvs ≠ [] →
    (∀ kv ∈ kvs, JsonSafeStr kv.1 ∧ JsonSafeStr kv.2) →
    parseAny (f + kvs.length + 1) false (strFieldsChain kvs ++ Char.ofNat 125 :: rest) =
      some (Sum.inr (kvs.map fun kv => (kv.1, Js.str kv.2)), rest)
  | [], _, _, hne, _ => absurd rfl hne
  | [kv], f, rest, _, hsafe => by
    obtain ⟨hk, hv⟩ := hsafe kv (by simp)
    rw [show strFieldsChain [kv] = stringifyStrField kv.1 kv.2 from rfl]
    unfold stringifyStrField
    rw [List.append_assoc, List.cons_append]
    exact parseAny_members_last (f + 1) kv.1 (Js.str kv.2) _ rest hk
      (parseAny_str f kv.2 (Char.ofNat 125 :: rest) hv)
  | kv :: kv2 :: kvs, f, rest, _, hsafe => by
    obtain ⟨hk, hv⟩ := hsafe kv (by simp)
    have ih := parseAny_strFieldsChain (kv2 :: kvs) f rest (by simp)
      (fun x hx => hsafe x (by simp at hx ⊢; tauto))
    rw [show strFieldsChain (kv :: kv2 :: kvs) =
      stringifyStrField kv.1 kv.2 ++ Char.ofNat 44 :: strFieldsChain (kv2 :: kvs) from rfl]
    unfold stringifyStrField
    rw [List.append_assoc, List.cons_append, List.append_assoc, List.cons_append]
    exact parseAny_members_cons (f + (kv2 :: kvs).length + 1) kv.1 (Js.str kv.2) _ _ rest _ hk
      (parseAny_str (f + (kv2 :: kvs).length) kv.2 _ hv) ih

/-- Parsing a serialized metadata object in value mode. -/
theorem parseAny_metadata (f : Nat) (m : Metadata) (rest : List Char)
    (hsafe : ∀ kv ∈ metadataStrFields m, JsonSafeStr kv.1 ∧ JsonSafeStr kv.2) :
    parseAny (f + (metadataStrFields m).length + 2) true (stringifyMetadata m ++ rest) =
      some (Sum.inl (metadataToJs m), rest) := by
  have hne : metadataStrFields m ≠ [] := by
    unfold metadataStrFields
    simp
  have hm := parseAny_strFieldsChain (metadataStrFields m) f rest hne hsafe
  have hhead : ∃ t, strFieldsChain (metadataStrFields m) ++ Char.ofNat 125 :: rest =
      Char.ofNat 34 :: t :=
    strFieldsChain_head ("name", m.name) _ _ (jsonSafeStr_of_all "name" (by decide))
  unfold stringifyMetadata
  simp only [List.cons_append, List.append_assoc, List.singleton_append]
  exact parseAny_obj (f + (metadataStrFields m).length + 1) _ rest _ hhead hm

theorem parseAny_stringifyBoolLit (f : Nat) (b : Bool) (rest : List Char) :
    parseAny (Nat.succ f) true (stringifyBoolLit b ++ rest) =
      some (Sum.inl (Js.bool b), rest) := by
  cases b <;> rfl

/-- Parsing a serialized `PairingData` record in value mode. -/
theorem parseAny_pairingData (f : Nat) (p : PairingData) (rest : List Char)
    (hmeta : ∀ kv ∈ metadataStrFields p.metadata, JsonSafeStr kv.1 ∧ JsonSafeStr kv.2)
    (htopic : JsonSafeStr p.topic) (hnet : JsonSafeStr p.network) :
    parseAny (f + 12) true (stringifyPairingData p ++ rest) =
      some (Sum.inl (pairingDataToJs p), rest) := by
  have hmlen : (metadataStrFields p.metadata).length ≤ 5 := by
    unfold metadataStrFields
    rcases p.metadata.url <;> rcases p.metadata.publicKey <;> simp
  have h5 := parseAny_stringifyBoolLit (f + 6) p.multiAccount (Char.ofNat 125 :: rest)
  have h4 := parseAny_members_last (f + 7) "multiAccount" (Js.bool p.multiAccount) _ rest
      (jsonSafeStr_of_all "multiAccount" (by decide)) h5
  have h3v := parseAny_str (f + 7) p.network
      (Char.ofNat 44 :: (jsonQuote "multiAccount" ++ Char.ofNat 58 ::
        (stringifyBoolLit p.multiAccount ++ Char.ofNat 125 :: rest))) hnet
  have h3 := parseAny_members_cons (f + 8) "network" (Js.str p.network) _ _ rest _
      (jsonSafeStr_of_all "network" (by decide)) h3v h4
  have h2v := parseAny_str (f + 8) p.topic
      (Char.ofNat 44 :: (jsonQuote "network" ++ Char.ofNat 58 ::
        (jsonQuote p.network ++ Char.ofNat 44 :: (jsonQuote "multiAccount" ++ Char.ofNat 58 ::
          (stringifyBoolLit p.multiAccount ++ Char.ofNat 125 :: rest))))) htopic
  have h2 := parseAny_members_cons (f + 9) "topic" (Js.str p.topic) _ _ rest _
      (jsonSafeStr_of_all "topic" (by decide)) h2v h3
  have hmv := parseAny_metadata (f + 8 - (metadataStrFields p.metadata).length) p.metadata
      (Char.ofNat 44 :: (jsonQuote "topic" ++ Char.ofNat 58 ::
        (jsonQuote p.topic ++ Char.ofNat 44 :: (jsonQuote "network" ++ Char.ofNat 58 ::
          (jsonQuote p.network ++ Char.ofNat 44 :: (jsonQuote "multiAccount" ++ Char.ofNat 58 ::
            (stringifyBoolLit p.multiAccount ++ Char.ofNat 125 :: rest))))))) hmeta
  rw [show f + 8 - (metadataStrFields p.metadata).length +
    (metadataStrFields p.metadata).length + 2 = f + 10 from by omega] at hmv
  have h1 := parseAny_members_cons (f + 10) "metadata" (metadataToJs p.metadata) _ _ rest _
      (jsonSafeStr_of_all "metadata" (by decide)) hmv h2
  have hhead := jsonQuote_head "metadata" (jsonSafeStr_of_all "metadata" (by decide))
      (Char.ofNat 58 :: (stringifyMetadata p.metadata ++ Char.ofNat 44 ::
        (jsonQuote "topic" ++ Char.ofNat 58 ::
          (jsonQuote p.topic ++ Char.ofNat 44 :: (jsonQuote "network" ++ Char.ofNat 58 ::
            (jsonQuote p.network ++ Char.ofNat 44 :: (jsonQuote "multiAccount" ++ Char.ofNat 58 ::
              (stringifyBoolLit p.multiAccount ++ Char.ofNat 125 :: rest))))))))
  have hfinal := parseAny_obj (f + 11) _ rest _ hhead h1
  unfold stringifyPairingData stringifyStrField
  simp only [List.cons_append, List.append_assoc, List.singleton_append]
  exact hfinal

/-! ### Messages, transport interface and the HashConnect state -/

/-- Message type tags (`RelayMessageType` lives in `./message`, not under src/). -/
inductive RelayMessageType where
  | Transaction
  | TransactionResponse
  | ApprovePairing
  | RejectPairing
  | Acknowledge
  | AdditionalAccountRequest
  | AdditionalAccountResponse
deriving DecidableEq

/-- `transaction.byteArray` is `Uint8Array | string` in JS. -/
inductive BytesOrText where
  | bytes : List Nat → BytesOrText
  | text : String → BytesOrText
deriving DecidableEq

/-- Modelled from the spec: `MessageTypes.Transaction` — `{byteArray, topic, …}`. -/
structure TransactionMsg where
  byteArray : BytesOrText
  topic : String
deriving DecidableEq

/-- Modelled from the spec: `MessageTypes.ApprovePairing` —
`{metadata, topic, accountIds, network}`. -/
structure ApprovePairingMsg where
  metadata : Metadata
  topic : String
  accountIds : List String
  network : String
deriving DecidableEq

/-- Modelled from the spec: `MessageTypes.Acknowledge` — `{result, topic, msg_id}`. -/
structure AcknowledgeMsg where
  result : Bool
  topic : String
  msg_id : String
deriving DecidableEq

/-- Bodies of the envelopes the modelled operations build. -/
inductive MessageBody where
  | transaction : TransactionMsg → MessageBody
  | approvePairing : ApprovePairingMsg → MessageBody
  | acknowledge : AcknowledgeMsg → MessageBody
deriving DecidableEq

/-- Modelled from the spec (section 6 and glossary): an envelope combines a
message-type tag, a correlation id and a type-specific body. -/
structure RelayMessage where
  id : String
  msgType : RelayMessageType
  body : MessageBody
deriving DecidableEq

/-- Modelled from the spec: the `MessageUtil` collaborator (`./message`, not
under src/) — supplies fresh envelope ids and random topic ids. -/
structure MessageUtil where
  freshId : String
  randomTopicId : String

/-- Modelled from the spec: `prepareSimpleMessage(type, body, context)` builds
an envelope `{id, …}` from the tag and body. -/
def prepareSimpleMessage (mu : MessageUtil) (t : RelayMessageType) (body : MessageBody) :
    RelayMessage :=
  { id := mu.freshId, msgType := t, body := body }

/-- The transport interface (`IRelay`): the results its `subscribe` and
`publish` promises settle with; `Except.error` models a rejected promise. -/
structure Relay where
  subscribe : String → Except String Unit
  publish : String → RelayMessage → Option String → Except String Unit

/-- A record of the transport calls an operation made. A call is recorded
even when its promise is not awaited. -/
inductive TransportCall where
  | subscribe : String → TransportCall
  | publish : String → RelayMessage → Option String → TransportCall
  | relayInit : TransportCall
  | addDecryptionKey : String → TransportCall
deriving DecidableEq

/-- The mutable fields of the `HashConnect` class that the claims concern. -/
structure HashConnect where
  metadata : Metadata
  publicKeys : List (String × Option String)
  privateKey : String
deriving DecidableEq

namespace HashConnect

/-- JS `this.publicKeys[topic]`: `undefined` both when no entry exists and
when an `undefined` value was stored. -/
def lookupKey (hc : HashConnect) (topic : String) : Option String :=
  match hc.publicKeys.find? (fun kv => kv.1 == topic) with
  | some kv => kv.2
  | none => none

/-- JS `this.publicKeys[topic] = v`: an assignment shadows older entries. -/
def setKey (hc : HashConnect) (topic : String) (v : Option String) : HashConnect :=
  { hc with publicKeys := (topic, v) :: hc.publicKeys }

theorem lookupKey_setKey (hc : HashConnect) (topic : String) (v : Option String) :
    (hc.setKey topic v).lookupKey topic = v := by
  unfold lookupKey setKey
  simp

structure ConnectOutcome where
  outcome : Except String ConnectionState
  st : HashConnect
  calls : List TransportCall

/-- `connect(topic?, metadataToConnect?)`: create or adopt a topic, register
the counterparty key when metadata is supplied, subscribe (awaited). -/
def connect (mu : MessageUtil) (relay : Relay) (hc : HashConnect)
    (topic? : Option String) (metadataToConnect : Option Metadata) : ConnectOutcome :=
  let topic := match topic? with
    | some t => t
    | none => mu.randomTopicId
  let hc1 := match metadataToConnect with
    | some m => hc.setKey topic m.publicKey
    | none => hc
  let state : ConnectionState := { topic := topic, expires := 0 }
  match relay.subscribe state.topic with
  | Except.ok _ =>
    { outcome := Except.ok state, st := hc1, calls := [TransportCall.subscribe state.topic] }
  | Except.error e =>
    { outcome := Except.error e, st := hc1, calls := [TransportCall.subscribe state.topic] }

structure SendOutcome where
  outcome : Except String String
  st : HashConnect
  transaction : TransactionMsg
  calls : List TransportCall

/-- `Buffer.from(transaction.byteArray)`: bytes stay bytes, a string is
UTF-8 encoded. -/
def bufferFrom : BytesOrText → List Nat
  | BytesOrText.bytes l => l
  | BytesOrText.text s => utf8Encode s

/-- `sendTransaction(topic, transaction)`: re-assigns
`transaction.byteArray = Buffer.from(transaction.byteArray).toString("base64")`
on the caller's record, builds a `Transaction` envelope and publishes it with
`this.publicKeys[topic]` (no registration check); the publish is awaited. -/
def sendTransaction (mu : MessageUtil) (relay : Relay) (hc : HashConnect)
    (topic : String) (transaction : TransactionMsg) : SendOutcome :=
  let transaction1 := { transaction with
    byteArray := BytesOrText.text (b64EncodeString (bufferFrom transaction.byteArray)) }
  let msg := prepareSimpleMessage mu RelayMessageType.Transaction
    (MessageBody.transaction transaction1)
  let key := hc.lookupKey topic
  match relay.publish topic msg key with
  | Except.ok _ =>
    { outcome := Except.ok msg.id, st := hc, transaction := transaction1,
      calls := [TransportCall.publish topic msg key] }
  | Except.error e =>
    { outcome := Except.error e, st := hc, transaction := transaction1,
      calls := [TransportCall.publish topic msg key] }

structure PairOutcome where
  outcome : Except String ConnectionState
  st : HashConnect
  calls : List TransportCall

/-- `pair(pairingData, accounts, network)`: connect (subscribe awaited),
sanitize the approval message in place (mutating `this.metadata`, which the
message aliases), register the counterparty key, publish the `ApprovePairing`
envelope without awaiting it — a rejection of that publish is dropped. -/
def pair (mu : MessageUtil) (relay : Relay) (hc : HashConnect)
    (pairingData : PairingData) (accounts : List String) (network : String) : PairOutcome :=
  let c := connect mu relay hc (some pairingData.topic) none
  match c.outcome with
  | Except.error e => { outcome := Except.error e, st := c.st, calls := c.calls }
  | Except.ok state =>
    let m' := { c.st.metadata with
                description := sanitizeString c.st.metadata.description,
                name := sanitizeString c.st.metadata.name,
                url := c.st.metadata.url.map sanitizeString }
    let msg : ApprovePairingMsg := { metadata := m', topic := pairingData.topic,
                                     accountIds := accounts.map (fun a => a),
                                     network := sanitizeString network }
    let hc2 := ({ c.st with metadata := m' } : HashConnect).setKey pairingData.topic
      pairingData.metadata.publicKey
    let payload := prepareSimpleMessage mu RelayMessageType.ApprovePairing
      (MessageBody.approvePairing msg)
    { outcome := Except.ok state, st := hc2,
      calls := c.calls ++ [TransportCall.publish pairingData.topic payload
        (hc2.lookupKey pairingData.topic)] }

structure AckOutcome where
  outcome : Except String Unit
  calls : List TransportCall

/-- `acknowledge(topic, pubKey, msg_id)`: build an `Acknowledge{result:true}`
envelope and publish it addressed with the explicitly supplied `pubKey`
(the registry `hc.publicKeys` is not consulted); the publish is awaited. -/
def acknowledge (mu : MessageUtil) (relay : Relay) (hc : HashConnect)
    (topic pubKey msg_id : String) : AckOutcome :=
  let ack : AcknowledgeMsg := { result := true, topic := topic, msg_id := msg_id }
  let ackPayload := prepareSimpleMessage mu RelayMessageType.Acknowledge
    (MessageBody.acknowledge ack)
  match relay.publish topic ackPayload (some pubKey) with
  | Except.ok _ =>
    { outcome := Except.ok (), calls := [TransportCall.publish topic ackPayload (some pubKey)] }
  | Except.error e =>
    { outcome := Except.error e,
      calls := [TransportCall.publish topic ackPayload (some pubKey)] }

structure WindowLocation where
  origin : String
deriving DecidableEq

/-- Ambient platform environment: the `window` global (with
`window.location.origin`) and the key primitives imported from js-waku. -/
structure HostEnv where
  window : Option WindowLocation
  getPublicKey : List Nat → List Nat
  generatePrivateKey : List Nat

/-- `generateEncryptionKeys`: a fresh private key, base64-encoded. -/
def generateEncryptionKeys (env : HostEnv) : String :=
  b64EncodeString env.generatePrivateKey

structure InitOutcome where
  outcome : Except String InitilizationData
  st : HashConnect
  calls : List TransportCall

/-- `init(metadata, privKey?)`: store the metadata object (aliased by
`this.metadata`), adopt or generate the private key, stamp the derived public
key into the caller's metadata, and — when a window global is present —
overwrite `metadata.url` with `window.location.origin`. Then await
`relay.init()` (its rejection propagates) and register the decryption key. -/
def init (env : HostEnv) (relayInitResult : Except String Unit) (hc : HashConnect)
    (metadata : Metadata) (privKey : Option String) : InitOutcome :=
  let privateKey := match privKey with
    | none => generateEncryptionKeys env
    | some k => k
  let metadata1 := { metadata with
    publicKey := some (b64EncodeString (env.getPublicKey (b64DecodeString privateKey))) }
  let metadata2 := match env.window with
    | some w => { metadata1 with url := some w.origin }
    | none => metadata1
  let st1 : HashConnect := { hc with metadata := metadata2, privateKey := privateKey }
  match relayInitResult with
  | Except.ok _ =>
    { outcome := Except.ok { privKey := privateKey }, st := st1,
      calls := [TransportCall.relayInit, TransportCall.addDecryptionKey privateKey] }
  | Except.error e =>
    { outcome := Except.error e, st := st1, calls := [TransportCall.relayInit] }

structure PairingStringOutcome where
  st : HashConnect
  pairingString : String

/-- `generatePairingString(state, network, multiAccount)`: build the
`PairingData` record from `this.metadata` (aliased, so the in-place
sanitization mutates the session metadata too), sanitize the free-text
fields, serialize with `JSON.stringify` and base64-encode the UTF-8 bytes.
The source's `url!` asserts the url is present; a missing url makes the
original throw, a case outside every claim here. -/
def generatePairingString (hc : HashConnect) (state : ConnectionState)
    (network : String) (multiAccount : Bool) : PairingStringOutcome :=
  let m' := { hc.metadata with
              description := sanitizeString hc.metadata.description,
              name := sanitizeString hc.metadata.name,
              url := hc.metadata.url.map sanitizeString }
  let data : PairingData := { metadata := m', topic := state.topic,
                              network := sanitizeString network, multiAccount := multiAccount }
  { st := { hc with metadata := m' },
    pairingString := b64EncodeString (utf8Encode (String.mk (stringifyPairingData data))) }

/-- `decodePairingString(pairingString)`: base64-decode (leniently, as Node
does), UTF-8 decode, `JSON.parse`. The parsed JS value is returned as-is —
it is not validated against the `PairingData` shape; a `JSON.parse` failure
(`none`) propagates to the caller. -/
def decodePairingString (pairingString : String) : Option Js :=
  jsonParse (utf8DecodeStr (b64DecodeString pairingString))

end HashConnect

/-! ### The serialized pairing record is ASCII and parses back -/

theorem jsonSafeChar_lt (c : Char) (h : jsonSafeChar c = true) : c.toNat < 128 := by
  simp only [jsonSafeChar, Bool.and_eq_true, bne_iff_ne, ne_eq, decide_eq_true_eq] at h
  omega

def AsciiList (l : List Char) : Prop := ∀ c ∈ l, c.toNat < 128

theorem ascii_append {l1 l2 : List Char} (h1 : AsciiList l1) (h2 : AsciiList l2) :
    AsciiList (l1 ++ l2) := by
  intro c hc
  rcases List.mem_append.mp hc with h | h
  · exact h1 c h
  · exact h2 c h

theorem ascii_cons {c : Char} {l : List Char} (hc : c.toNat < 128) (h : AsciiList l) :
    AsciiList (c :: l) := by
  intro x hx
  rcases List.mem_cons.mp hx with rfl | hx
  · exact hc
  · exact h x hx

theorem jsonQuote_ascii (s : String) (hs : JsonSafeStr s) : AsciiList (jsonQuote s) := by
  rw [jsonQuote_safe s hs]
  exact ascii_cons (by decide) (ascii_append (fun c hc => jsonSafeChar_lt c (hs c hc))
    (ascii_cons (by decide) (fun c hc => absurd hc (List.not_mem_nil c))))

theorem stringifyStrField_ascii (k v : String) (hk : JsonSafeStr k) (hv : JsonSafeStr v) :
    AsciiList (stringifyStrField k v) := by
  unfold stringifyStrField
  exact ascii_append (jsonQuote_ascii k hk) (ascii_cons (by decide) (jsonQuote_ascii v hv))

theorem strFieldsChain_ascii : ∀ kvs : List (String × String),
    (∀ kv ∈ kvs, JsonSafeStr kv.1 ∧ JsonSafeStr kv.2) → AsciiList (strFieldsChain kvs)
  | [], _ => fun c hc => absurd hc (List.not_mem_nil c)
  | [kv], h => by
    obtain ⟨hk, hv⟩ := h kv (by simp)
    rw [show strFieldsChain [kv] = stringifyStrField kv.1 kv.2 from rfl]
    exact stringifyStrField_ascii kv.1 kv.2 hk hv
  | kv :: kv2 :: kvs, h => by
    obtain ⟨hk, hv⟩ := h kv (by simp)
    rw [show strFieldsChain (kv :: kv2 :: kvs) =
      stringifyStrField kv.1 kv.2 ++ Char.ofNat 44 :: strFieldsChain (kv2 :: kvs) from rfl]
    exact ascii_append (stringifyStrField_ascii kv.1 kv.2 hk hv)
      (ascii_cons (by decide)
        (strFieldsChain_ascii (kv2 :: kvs) (fun x hx => h x (by simp at hx ⊢; tauto))))

theorem stringifyMetadata_ascii (m : Metadata)
    (h : ∀ kv ∈ metadataStrFields m, JsonSafeStr kv.1 ∧ JsonSafeStr kv.2) :
    AsciiList (stringifyMetadata m) := by
  unfold stringifyMetadata
  exact ascii_append (ascii_cons (by decide) (strFieldsChain_ascii (metadataStrFields m) h))
    (ascii_cons (by decide) (fun c hc => absurd hc (List.not_mem_nil c)))

theorem stringifyBoolLit_ascii (b : Bool) : AsciiList (stringifyBoolLit b) := by
  cases b <;> · unfold AsciiList stringifyBoolLit
                decide

theorem stringifyPairingData_ascii (p : PairingData)
    (hmeta : ∀ kv ∈ metadataStrFields p.metadata, JsonSafeStr kv.1 ∧ JsonSafeStr kv.2)
    (htopic : JsonSafeStr p.topic) (hnet : JsonSafeStr p.network) :
    AsciiList (stringifyPairingData p) := by
  unfold stringifyPairingData
  refine ascii_append (ascii_append (ascii_append (ascii_append
    (ascii_cons (by decide) (ascii_append (jsonQuote_ascii "metadata" (jsonSafeStr_of_all "metadata" (by decide)))
      (ascii_cons (by decide) (stringifyMetadata_ascii p.metadata hmeta))))
    (ascii_cons (by decide) (stringifyStrField_ascii "topic" p.topic
      (jsonSafeStr_of_all "topic" (by decide)) htopic)))
    (ascii_cons (by decide) (stringifyStrField_ascii "network" p.network
      (jsonSafeStr_of_all "network" (by decide)) hnet)))
    (ascii_cons (by decide) (ascii_append
      (jsonQuote_ascii "multiAccount" (jsonSafeStr_of_all "multiAccount" (by decide)))
      (ascii_cons (by decide) (stringifyBoolLit_ascii p.multiAccount)))))
    (ascii_cons (by decide) (fun c hc => absurd hc (List.not_mem_nil c)))

theorem stringifyPairingData_length (p : PairingData) :
    11 ≤ (stringifyPairingData p).length := by
  have h1 : (jsonQuote "metadata").length = 10 := by decide
  unfold stringifyPairingData stringifyStrField
  simp only [List.length_append, List.length_cons, List.length_singleton, h1]
  omega

theorem metadataStrFields_safe (m : Metadata)
    (hn : JsonSafeStr m.name) (hd : JsonSafeStr m.description) (hi : JsonSafeStr m.icon)
    (hu : ∀ u, m.url = some u → JsonSafeStr u)
    (hk : ∀ k, m.publicKey = some k → JsonSafeStr k) :
    ∀ kv ∈ metadataStrFields m, JsonSafeStr kv.1 ∧ JsonSafeStr kv.2 := by
  intro kv hkv
  unfold metadataStrFields at hkv
  rcases hu' : m.url with _ | u <;> rcases hk' : m.publicKey with _ | k <;>
    rw [hu', hk'] at hkv <;>
    simp only [List.append_nil, List.nil_append, List.append_assoc, List.cons_append,
      List.mem_append, List.mem_cons, List.not_mem_nil, or_false, false_or] at hkv
  · rcases hkv with rfl | rfl | rfl
    · exact ⟨jsonSafeStr_of_all "name" (by decide), hn⟩
    · exact ⟨jsonSafeStr_of_all "description" (by decide), hd⟩
    · exact ⟨jsonSafeStr_of_all "icon" (by decide), hi⟩
  · rcases hkv with rfl | rfl | rfl | rfl
    · exact ⟨jsonSafeStr_of_all "name" (by decide), hn⟩
    · exact ⟨jsonSafeStr_of_all "description" (by decide), hd⟩
    · exact ⟨jsonSafeStr_of_all "icon" (by decide), hi⟩
    · exact ⟨jsonSafeStr_of_all "publicKey" (by decide), hk k hk'⟩
  · rcases hkv with rfl | rfl | rfl | rfl
    · exact ⟨jsonSafeStr_of_all "name" (by decide), hn⟩
    · exact ⟨jsonSafeStr_of_all "description" (by decide), hd⟩
    · exact ⟨jsonSafeStr_of_all "icon" (by decide), hi⟩
    · exact ⟨jsonSafeStr_of_all "url" (by decide), hu u hu'⟩
  · rcases hkv with rfl | rfl | rfl | rfl | rfl
    · exact ⟨jsonSafeStr_of_all "name" (by decide), hn⟩
    · exact ⟨jsonSafeStr_of_all "description" (by decide), hd⟩
    · exact ⟨jsonSafeStr_of_all "icon" (by decide), hi⟩
    · exact ⟨jsonSafeStr_of_all "url" (by decide), hu u hu'⟩
    · exact ⟨jsonSafeStr_of_all "publicKey" (by decide), hk k hk'⟩

/-- `JSON.parse` recovers the JS value of a serialized `PairingData` record. -/
theorem jsonParse_stringifyPairingData (p : PairingData)
    (hmeta : ∀ kv ∈ metadataStrFields p.metadata, JsonSafeStr kv.1 ∧ JsonSafeStr kv.2)
    (htopic : JsonSafeStr p.topic) (hnet : JsonSafeStr p.network) :
    jsonParse (String.mk (stringifyPairingData p)) = some (pairingDataToJs p) := by
  have hlen := stringifyPairingData_length p
  have hx := parseAny_pairingData ((stringifyPairingData p).length + 1 - 12) p [] hmeta htopic hnet
  rw [show (stringifyPairingData p).length + 1 - 12 + 12 =
    (stringifyPairingData p).length + 1 from by omega] at hx
  rw [List.append_nil] at hx
  unfold jsonParse
  rw [show (String.mk (stringifyPairingData p)).data = stringifyPairingData p from rfl]
  rw [hx]
  rfl

/-- C5: round trip of the pairing codec. For a valid `PairingData` `p` whose
free-text fields (name, description, url, network) are over the sanitizer's
safe alphabet, decoding the pairing string generated from `p`'s topic,
network and multiAccount with `p`'s metadata as the local metadata returns
`p` — stated as: the JS value `JSON.parse` yields equals `p`'s JS value
`pairingDataToJs p`. Validity of `p` is taken to mean its machine fields
(topic, icon, publicKey) are printable ASCII without `"` or `\`, which
base64 keys, topic ids and URLs satisfy. -/
theorem decode_generate_pairingString (p : PairingData)
    (keys : List (String × Option String)) (priv : String) (e : Nat)
    (hname : SafeAlphaStr p.metadata.name) (hdesc : SafeAlphaStr p.metadata.description)
    (hurl : ∃ u, p.metadata.url = some u ∧ SafeAlphaStr u)
    (hnet : SafeAlphaStr p.network)
    (hicon : JsonSafeStr p.metadata.icon)
    (htopic : JsonSafeStr p.topic)
    (hpk : ∀ k, p.metadata.publicKey = some k → JsonSafeStr k) :
    HashConnect.decodePairingString
      (HashConnect.generatePairingString ⟨p.metadata, keys, priv⟩ ⟨p.topic, e⟩
        p.network p.multiAccount).pairingString = some (pairingDataToJs p) := by
  obtain ⟨u, hu, husafe⟩ := hurl
  have hdata : ({ metadata := { p.metadata with
                    description := sanitizeString p.metadata.description,
                    name := sanitizeString p.metadata.name,
                    url := p.metadata.url.map sanitizeString },
                  topic := p.topic, network := sanitizeString p.network,
                  multiAccount := p.multiAccount } : PairingData) = p := by
    rw [sanitizeString_safe _ hname, sanitizeString_safe _ hdesc,
        sanitizeString_safe _ hnet, hu]
    rw [show (some u).map sanitizeString = some (sanitizeString u) from rfl]
    rw [sanitizeString_safe _ husafe, ← hu]
  have hE : (HashConnect.generatePairingString ⟨p.metadata, keys, priv⟩ ⟨p.topic, e⟩
      p.network p.multiAccount).pairingString =
      b64EncodeString (utf8Encode (String.mk (stringifyPairingData p))) := by
    show b64EncodeString (utf8Encode (String.mk (stringifyPairingData
      { metadata := { p.metadata with
          description := sanitizeString p.metadata.description,
          name := sanitizeString p.metadata.name,
          url := p.metadata.url.map sanitizeString },
        topic := p.topic, network := sanitizeString p.network,
        multiAccount := p.multiAccount }))) = _
    rw [hdata]
  rw [hE]
  have hmeta := metadataStrFields_safe p.metadata hname.jsonSafe hdesc.jsonSafe hicon
    (fun u' hu' => by
      rw [hu] at hu'
      cases hu'
      exact husafe.jsonSafe) hpk
  have hascii := stringifyPairingData_ascii p hmeta htopic hnet.jsonSafe
  unfold HashConnect.decodePairingString
  have hb : b64DecodeString (b64EncodeString (utf8Encode (String.mk (stringifyPairingData p)))) =
      utf8Encode (String.mk (stringifyPairingData p)) := by
    unfold b64DecodeString b64EncodeString
    rw [show (String.mk (b64EncodeBytes (utf8Encode (String.mk (stringifyPairingData p))))).data =
      b64EncodeBytes (utf8Encode (String.mk (stringifyPairingData p))) from rfl]
    apply b64_roundtrip
    intro b hbm
    rw [show utf8Encode (String.mk (stringifyPairingData p)) =
      (stringifyPairingData p).flatMap utf8EncodeChar from rfl] at hbm
    rw [utf8Encode_ascii _ hascii] at hbm
    rcases List.mem_map.mp hbm with ⟨c, hc, rfl⟩
    have := hascii c hc
    omega
  rw [hb]
  have hlen8 : (stringifyPairingData p).length ≤
      ((stringifyPairingData p).flatMap utf8EncodeChar).length := by
    rw [utf8Encode_ascii _ hascii, List.length_map]
  have hu8 : utf8DecodeStr (utf8Encode (String.mk (stringifyPairingData p))) =
      String.mk (stringifyPairingData p) := by
    unfold utf8DecodeStr
    exact congrArg String.mk (utf8_ascii_roundtrip _ _ hascii hlen8)
  rw [hu8]
  exact jsonParse_stringifyPairingData p hmeta htopic hnet.jsonSafe

/-! ### Concrete fixtures used to evaluate the model -/

def muW : MessageUtil := { freshId := "msg-1", randomTopicId := "topic-r" }

def relayOk : Relay :=
  { subscribe := fun _ => Except.ok (), publish := fun _ _ _ => Except.ok () }

def relayPubReject : Relay :=
  { subscribe := fun _ => Except.ok (), publish := fun _ _ _ => Except.error "transport rejected" }

def metaA : Metadata :=
  { name := "App", description := "demo app", icon := "icon.png",
    url := some "example.com", publicKey := some "APPKEY" }

def metaW : Metadata :=
  { name := "Wallet", description := "wallet app", icon := "w.png",
    url := some "wallet.example", publicKey := some "WALLETKEY" }

def hcFresh : HashConnect := { metadata := metaA, publicKeys := [], privateKey := "" }

def pdW : PairingData :=
  { metadata := metaW, topic := "t1", network := "testnet", multiAccount := false }

def txA : TransactionMsg := { byteArray := BytesOrText.bytes [1, 2, 3], topic := "t1" }

/-! ### Shared unfolding helpers for the operations -/

theorem sendTransaction_transaction_eq (mu : MessageUtil) (relay : Relay) (hc : HashConnect)
    (topic : String) (tx : TransactionMsg) :
    (HashConnect.sendTransaction mu relay hc topic tx).transaction =
      { tx with byteArray :=
          BytesOrText.text (b64EncodeString (HashConnect.bufferFrom tx.byteArray)) } := by
  have hmatch : HashConnect.sendTransaction mu relay hc topic tx =
      (match relay.publish topic
          (prepareSimpleMessage mu RelayMessageType.Transaction (MessageBody.transaction
            { tx with byteArray := BytesOrText.text (b64EncodeString (HashConnect.bufferFrom tx.byteArray)) }))
          (hc.lookupKey topic) with
       | Except.ok _ =>
         { outcome := Except.ok mu.freshId, st := hc,
           transaction :=
             { tx with byteArray := BytesOrText.text (b64EncodeString (HashConnect.bufferFrom tx.byteArray)) },
           calls := [TransportCall.publish topic
             (prepareSimpleMessage mu RelayMessageType.Transaction (MessageBody.transaction
               { tx with byteArray := BytesOrText.text (b64EncodeString (HashConnect.bufferFrom tx.byteArray)) }))
             (hc.lookupKey topic)] }
       | Except.error e =>
         { outcome := Except.error e, st := hc,
           transaction :=
             { tx with byteArray := BytesOrText.text (b64EncodeString (HashConnect.bufferFrom tx.byteArray)) },
           calls := [TransportCall.publish topic
             (prepareSimpleMessage mu RelayMessageType.Transaction (MessageBody.transaction
               { tx with byteArray := BytesOrText.text (b64EncodeString (HashConnect.bufferFrom tx.byteArray)) }))
             (hc.lookupKey topic)] }) := rfl
  rw [hmatch]
  split <;> rfl

/-! ### Claim theorems -/

/-- C1: the claim says `sendTransaction(topic, tx)` on a topic with no
registered public key fails with `UnregisteredCounterpartyKey` and does not
publish. The code has no such check: evaluated on a fresh session with an
empty registry, the call resolves with the message id and invokes the
transport's publish with an undefined (`none`) recipient key. -/
theorem sendTransaction_unregistered_topic_still_publishes :
    (HashConnect.sendTransaction muW relayOk hcFresh "t1" txA).outcome = Except.ok "msg-1" ∧
    (HashConnect.sendTransaction muW relayOk hcFresh "t1" txA).calls =
      [TransportCall.publish "t1"
        { id := "msg-1", msgType := RelayMessageType.Transaction,
          body := MessageBody.transaction { byteArray := BytesOrText.text "AQID", topic := "t1" } }
        none] :=
  ⟨rfl, rfl⟩

/-- C2 (counterexample): the sanitizer is not idempotent — the escape of `&`
is `&#38;`, whose own `&`, `#` and `;` get re-escaped on a second pass. -/
theorem sanitizeString_not_idempotent :
    sanitizeString (sanitizeString "&") ≠ sanitizeString "&" := by decide

/-- C2 (amended): the sanitizer is idempotent on strings over its safe
alphabet (on which it is the identity). -/
theorem sanitizeString_idempotent_on_safe (s : String) (h : SafeAlphaStr s) :
    sanitizeString (sanitizeString s) = sanitizeString s := by
  rw [sanitizeString_safe s h, sanitizeString_safe s h]

theorem sanitizeString_idempotent_on_safe_witness :
    sanitizeString (sanitizeString "Safe text 1.0") = sanitizeString "Safe text 1.0" :=
  sanitizeString_idempotent_on_safe "Safe text 1.0" (safeAlphaStr_of_all _ (by decide))

/-- C3: the claim says `decodePairingString` fails with a
`MalformedPairingString` error kind when the input does not deserialize into
the expected record shape. Evaluated at `"e30="` — valid base64 of `"{}"`,
which is not a `PairingData` — the code returns the empty object with no
error: no shape validation exists. -/
theorem decodePairingString_accepts_wrong_shape :
    HashConnect.decodePairingString "e30=" = some (Js.obj []) := rfl

/-- A relay with uniform subscribe/publish promise results. -/
def mkRelay (subRes pubRes : Except String Unit) : Relay :=
  { subscribe := fun _ => subRes, publish := fun _ _ _ => pubRes }

/-- C4 (counterexample): with a transport whose publish always rejects (and
whose subscribe succeeds), `pair` still resolves with the connection state —
the rejection of its `ApprovePairing` publish does not propagate to the
caller, contradicting the claim for that operation. -/
theorem pair_resolves_despite_publish_rejection :
    (HashConnect.pair muW relayPubReject hcFresh pdW ["0.0.123"] "testnet").outcome =
      Except.ok { topic := "t1", expires := 0 } ∧
    (HashConnect.pair muW relayPubReject hcFresh pdW ["0.0.123"] "testnet").calls =
      [TransportCall.subscribe "t1",
       TransportCall.publish "t1"
         { id := "msg-1", msgType := RelayMessageType.ApprovePairing,
           body := MessageBody.approvePairing
             { metadata := metaA, topic := "t1", accountIds := ["0.0.123"],
               network := "testnet" } }
         (some "WALLETKEY")] ∧
    relayPubReject.publish "t1"
      { id := "msg-1", msgType := RelayMessageType.ApprovePairing,
        body := MessageBody.approvePairing
          { metadata := metaA, topic := "t1", accountIds := ["0.0.123"],
            network := "testnet" } }
      (some "WALLETKEY") = Except.error "transport rejected" :=
  ⟨rfl, rfl, rfl⟩

/-- C4 (amended): rejections of awaited transport calls propagate to the
caller — `sendTransaction` fails exactly when its publish rejects, and `pair`
fails exactly when its subscribe rejects — but `pair`'s un-awaited
`ApprovePairing` publish is fire-and-forget: `pair`'s result does not depend
on the publish result at all. -/
theorem transport_rejection_propagation (subRes pubRes : Except String Unit)
    (mu : MessageUtil) (hc : HashConnect) (topic : String) (tx : TransactionMsg)
    (pd : PairingData) (accounts : List String) (network : String) :
    ((HashConnect.sendTransaction mu (mkRelay subRes pubRes) hc topic tx).outcome =
      match pubRes with
      | Except.ok _ => Except.ok mu.freshId
      | Except.error e => Except.error e) ∧
    ((HashConnect.pair mu (mkRelay subRes pubRes) hc pd accounts network).outcome =
      match subRes with
      | Except.ok _ => Except.ok { topic := pd.topic, expires := 0 }
      | Except.error e => Except.error e) := by
  constructor
  · cases pubRes <;> rfl
  · cases subRes <;> cases pubRes <;> rfl

theorem decode_generate_pairingString_witness :
    HashConnect.decodePairingString
      (HashConnect.generatePairingString ⟨pdW.metadata, [], ""⟩ ⟨pdW.topic, 0⟩
        pdW.network pdW.multiAccount).pairingString = some (pairingDataToJs pdW) :=
  decode_generate_pairingString pdW [] "" 0
    (safeAlphaStr_of_all _ (by decide))
    (safeAlphaStr_of_all _ (by decide))
    ⟨"wallet.example", rfl, safeAlphaStr_of_all _ (by decide)⟩
    (safeAlphaStr_of_all _ (by decide))
    (jsonSafeStr_of_all _ (by decide))
    (jsonSafeStr_of_all _ (by decide))
    (fun k hk => by
      rw [show pdW.metadata.publicKey = some "WALLETKEY" from rfl] at hk
      cases hk
      exact jsonSafeStr_of_all _ (by decide))

/-- C6: `pair(pairingData, accounts, network)` on an initialized session
(the subscribe for the topic succeeding): afterwards the public-key registry
maps `pairingData.topic` to `pairingData.metadata.publicKey`, an
`ApprovePairing` envelope has been published to `pairingData.topic`
(addressed with that key), and the returned `ConnectionState.topic` equals
`pairingData.topic` (with `expires = 0`). -/
theorem pair_postconditions (mu : MessageUtil) (relay : Relay) (hc : HashConnect)
    (pd : PairingData) (accounts : List String) (network : String)
    (hsub : relay.subscribe pd.topic = Except.ok ()) :
    (HashConnect.pair mu relay hc pd accounts network).outcome =
      Except.ok { topic := pd.topic, expires := 0 } ∧
    (HashConnect.pair mu relay hc pd accounts network).st.lookupKey pd.topic =
      pd.metadata.publicKey ∧
    ∃ payload, payload.msgType = RelayMessageType.ApprovePairing ∧
      TransportCall.publish pd.topic payload pd.metadata.publicKey ∈
        (HashConnect.pair mu relay hc pd accounts network).calls := by
  have hcon : HashConnect.connect mu relay hc (some pd.topic) none =
      { outcome := Except.ok { topic := pd.topic, expires := 0 }, st := hc,
        calls := [TransportCall.subscribe pd.topic] } := by
    have h0 : HashConnect.connect mu relay hc (some pd.topic) none =
        (match relay.subscribe pd.topic with
         | Except.ok _ =>
           ({ outcome := Except.ok { topic := pd.topic, expires := 0 }, st := hc,
              calls := [TransportCall.subscribe pd.topic] } : HashConnect.ConnectOutcome)
         | Except.error e =>
           { outcome := Except.error e, st := hc,
             calls := [TransportCall.subscribe pd.topic] }) := rfl
    rw [h0, hsub]
  unfold HashConnect.pair
  rw [hcon]
  refine ⟨rfl, ?_, ?_⟩
  · exact HashConnect.lookupKey_setKey _ pd.topic pd.metadata.publicKey
  · refine ⟨prepareSimpleMessage mu RelayMessageType.ApprovePairing (MessageBody.approvePairing
      { metadata := { hc.metadata with
          description := sanitizeString hc.metadata.description,
          name := sanitizeString hc.metadata.name,
          url := hc.metadata.url.map sanitizeString },
        topic := pd.topic, accountIds := accounts.map (fun a => a),
        network := sanitizeString network }), rfl, ?_⟩
    show TransportCall.publish pd.topic
        (prepareSimpleMessage mu RelayMessageType.ApprovePairing (MessageBody.approvePairing
          { metadata := { hc.metadata with
              description := sanitizeString hc.metadata.description,
              name := sanitizeString hc.metadata.name,
              url := hc.metadata.url.map sanitizeString },
            topic := pd.topic, accountIds := accounts.map (fun a => a),
            network := sanitizeString network })) pd.metadata.publicKey ∈
      [TransportCall.subscribe pd.topic] ++
        [TransportCall.publish pd.topic
          (prepareSimpleMessage mu RelayMessageType.ApprovePairing (MessageBody.approvePairing
            { metadata := { hc.metadata with
                description := sanitizeString hc.metadata.description,
                name := sanitizeString hc.metadata.name,
                url := hc.metadata.url.map sanitizeString },
              topic := pd.topic, accountIds := accounts.map (fun a => a),
              network := sanitizeString network }))
          ((HashConnect.setKey { hc with metadata := { hc.metadata with
              description := sanitizeString hc.metadata.description,
              name := sanitizeString hc.metadata.name,
              url := hc.metadata.url.map sanitizeString } } pd.topic
            pd.metadata.publicKey).lookupKey pd.topic)]
    rw [HashConnect.lookupKey_setKey]
    simp

theorem pair_postconditions_witness :
    (HashConnect.pair muW relayOk hcFresh pdW ["0.0.123"] "testnet").outcome =
      Except.ok { topic := "t1", expires := 0 } ∧
    (HashConnect.pair muW relayOk hcFresh pdW ["0.0.123"] "testnet").st.lookupKey "t1" =
      some "WALLETKEY" ∧
    ∃ payload, payload.msgType = RelayMessageType.ApprovePairing ∧
      TransportCall.publish "t1" payload (some "WALLETKEY") ∈
        (HashConnect.pair muW relayOk hcFresh pdW ["0.0.123"] "testnet").calls :=
  pair_postconditions muW relayOk hcFresh pdW ["0.0.123"] "testnet" rfl

/-- C7: `acknowledge(topic, pubKey, msg_id)` publishes exactly one envelope:
an `Acknowledge` with body `{result: true, topic, msg_id}`, to `topic`,
addressed with the explicitly supplied `pubKey` — for every session state,
including any with no key (or a different key) registered for the topic, so
the registry is never consulted. -/
theorem acknowledge_uses_supplied_key (mu : MessageUtil) (relay : Relay) (hc : HashConnect)
    (topic pubKey msg_id : String) :
    (HashConnect.acknowledge mu relay hc topic pubKey msg_id).calls =
      [TransportCall.publish topic
        { id := mu.freshId, msgType := RelayMessageType.Acknowledge,
          body := MessageBody.acknowledge { result := true, topic := topic, msg_id := msg_id } }
        (some pubKey)] := by
  have h0 : HashConnect.acknowledge mu relay hc topic pubKey msg_id =
      (match relay.publish topic
          { id := mu.freshId, msgType := RelayMessageType.Acknowledge,
            body := MessageBody.acknowledge { result := true, topic := topic, msg_id := msg_id } }
          (some pubKey) with
       | Except.ok _ =>
         ({ outcome := Except.ok (),
            calls := [TransportCall.publish topic
              { id := mu.freshId, msgType := RelayMessageType.Acknowledge,
                body := MessageBody.acknowledge
                  { result := true, topic := topic, msg_id := msg_id } }
              (some pubKey)] } : HashConnect.AckOutcome)
       | Except.error e =>
         { outcome := Except.error e,
           calls := [TransportCall.publish topic
             { id := mu.freshId, msgType := RelayMessageType.Acknowledge,
               body := MessageBody.acknowledge
                 { result := true, topic := topic, msg_id := msg_id } }
             (some pubKey)] }) := rfl
  rw [h0]
  split <;> rfl

/-- C9: `sendTransaction` mutates the caller's transaction record in place —
after the call the record's `byteArray` is the base64 text of its previous
contents, so a second call with the same record base64-encodes the UTF-8
bytes of that text rather than the original bytes. -/
theorem sendTransaction_double_encodes (mu mu2 : MessageUtil) (relay relay2 : Relay)
    (hc hc2 : HashConnect) (topic topic2 : String) (tx : TransactionMsg) :
    (HashConnect.sendTransaction mu relay hc topic tx).transaction.byteArray =
      BytesOrText.text (b64EncodeString (HashConnect.bufferFrom tx.byteArray)) ∧
    (HashConnect.sendTransaction mu2 relay2 hc2 topic2
        (HashConnect.sendTransaction mu relay hc topic tx).transaction).transaction.byteArray =
      BytesOrText.text (b64EncodeString (utf8Encode
        (b64EncodeString (HashConnect.bufferFrom tx.byteArray)))) := by
  constructor
  · rw [sendTransaction_transaction_eq]
  · rw [sendTransaction_transaction_eq, sendTransaction_transaction_eq]
    rfl

/-- C10: whenever a window global is present, `init` overwrites the caller's
`metadata.url` with the ambient `window.location.origin` — for every
caller-supplied metadata, so any supplied url value is discarded. -/
theorem init_overwrites_url (w : HashConnect.WindowLocation) (gpk : List Nat → List Nat)
    (gpriv : List Nat) (r : Except String Unit) (hc : HashConnect)
    (metadata : Metadata) (privKey : Option String) :
    (HashConnect.init { window := some w, getPublicKey := gpk, generatePrivateKey := gpriv }
      r hc metadata privKey).st.metadata.url = some w.origin := by
  cases privKey <;> cases r <;> rfl

/-- C8: the sanitizer replaces every character outside the class
word-char / `.` / space by its numeric HTML character reference and passes
`.` through unescaped (`sanitizeString` agrees with the spec-modelled
`sanitizeSpec` on every string); in particular
`sanitize("A&B.C") = "A&#38;B.C"`. -/
theorem sanitizeString_matches_spec :
    (∀ s : String, sanitizeString s = sanitizeSpec s) ∧
    sanitizeString "A&B.C" = "A&#38;B.C" :=
  ⟨sanitizeString_eq_spec, by decide⟩
